import Mathlib

/-!
Verification of the map-response generation and framing pipeline of
`hscontrol/mapper/mapper.go` (headscale).

The Go code is shallowly embedded: pure functions become Lean functions,
heap mutation of the DNS template and of resolver records is made explicit
by returning the post-call value of the mutated object, Go `nil` pointers
become `Option`, byte slices become `List Nat`, Go maps (`map[string]V`)
become insertion-ordered association lists with overwrite-on-insert, and a
nil-pointer dereference (a Go runtime panic) is modelled as the `none`
result of an `Option`-valued function.  External collaborators that are not
part of the sources (the database layer, the policy engine, JSON
serialization, zstd compression, NaCl sealing, key parsing, URL escaping)
are abstract function parameters collected in the `Collab` structure.
-/

/-- A user record (`types.User`), projected to the fields the mapper reads:
numeric id and login name. -/
structure User where
  id : Nat
  name : String
deriving DecidableEq

/-- A DNS resolver (`dnstype.Resolver`), projected to its address string,
the only field the mapper touches. -/
structure Resolver where
  addr : String
deriving DecidableEq

/-- `tailcfg.DNSConfig`, projected to the fields the mapper reads or writes.
`routes` models the Go map `Routes map[string][]*dnstype.Resolver` as an
insertion-ordered association list; a `none` value models a nil slice value
(the mapper only ever assigns nil values). -/
structure DNSConfig where
  resolvers : List Resolver
  domains : List String
  routes : List (String × Option (List Resolver))
  proxied : Bool
deriving DecidableEq

/-- The slice of `tailcfg.Hostinfo` the mapper reads. -/
structure HostInfo where
  os : String
deriving DecidableEq

/-- A machine record (`types.Machine`), projected to the fields the mapper
reads.  `ipAddresses` holds the rendered address strings. -/
structure Machine where
  machineKey : String
  hostname : String
  ipAddresses : List String
  user : User
  hostInfo : HostInfo
deriving DecidableEq

/-- `tailcfg.UserProfile`, projected to the fields the mapper fills. -/
structure UserProfile where
  id : Nat
  loginName : String
  displayName : String
deriving DecidableEq

/-- The slice of `tailcfg.MapRequest` the mapper reads: the negotiated
compression string. -/
structure MapRequest where
  compress : String
deriving DecidableEq

/-- `tailcfg.MapResponse`, projected to the fields the mapper assembles.
The protocol node type, filter rule type, SSH policy type and DERP map type
are opaque to the mapper and stay abstract.  Go nil pointers are `none`;
the `debug` field models the `*tailcfg.Debug` pointer as an optional pair
(DisableLogTail, RandomizeClientPort). -/
structure MapResponse (Node Rule SSH Derp : Type) where
  keepAlive : Bool
  node : Option Node
  derpMap : Option Derp
  peers : List Node
  dnsConfig : Option DNSConfig
  domain : String
  collectServices : String
  packetFilter : List Rule
  userProfiles : List UserProfile
  sshPolicy : Option SSH
  controlTime : Option Nat
  debug : Option (Bool × Bool)
deriving DecidableEq

/-- The `Mapper` struct: per-server configuration.  The database handle and
the long-term private key are modelled through the collaborator functions
in `Collab` (the key only ever appears as the partially applied sealing
function `sealTo`). -/
structure Mapper (Derp : Type) where
  isNoise : Bool
  derpMap : Option Derp
  baseDomain : String
  dnsCfg : Option DNSConfig
  logtail : Bool
  randomClientPort : Bool
  stripEmailDomain : Bool

/-- `NewMapper`: plain construction of the `Mapper` configuration record.
It accepts any `dnsCfg`, including `none` (a nil DNS template pointer). -/
def NewMapper {Derp : Type} (isNoise : Bool) (derpMap : Option Derp)
    (baseDomain : String) (dnsCfg : Option DNSConfig)
    (logtail randomClientPort stripEmailDomain : Bool) : Mapper Derp :=
  { isNoise := isNoise
    derpMap := derpMap
    baseDomain := baseDomain
    dnsCfg := dnsCfg
    logtail := logtail
    randomClientPort := randomClientPort
    stripEmailDomain := stripEmailDomain }

/-- The external collaborators of the mapper, kept abstract: the database
layer (`db.TailNode`, `db.ListPeers`, `db.TailNodes`), the policy engine
(`policy.GenerateFilterRules`, `policy.FilterMachinesByACL`), JSON
serialization, zstd compression, sealed-box encryption
(`privateKey2019.SealTo`, with the server private key baked in), client key
parsing (`MachinePublicKeyEnsurePrefix` composed with `UnmarshalText`), the
zero value of the machine-key type, and URL query escaping. -/
structure Collab (Pol Node Rule SSH Derp Err Key : Type) where
  tailNode : Machine → Pol → Option DNSConfig → Except Err Node
  listPeers : Machine → Except Err (List Machine)
  generateFilterRules : Pol → List Machine → Bool → Except Err (List Rule × Option SSH)
  filterMachinesByACL : Machine → List Machine → List Rule → List Machine
  tailNodes : List Machine → Pol → Option DNSConfig → Except Err (List Node)
  jsonMarshal : MapResponse Node Rule SSH Derp → Except Err (List Nat)
  zstdEncode : List Nat → List Nat
  sealTo : Key → List Nat → List Nat
  parseClientKey : String → Except Err Key
  zeroKey : Key
  urlQueryEscape : String → String

/-- `strings.HasPrefix`, computed on the character data. -/
def strHasPre (p s : String) : Bool := p.data.isPrefixOf s.data

/-- Byte-order comparison of strings (the order used by Go's
`sort.Strings` inside `url.Values.Encode`), computed on character data. -/
def chLe : List Char → List Char → Bool
  | [], _ => true
  | _ :: _, [] => false
  | a :: as, b :: bs =>
    if a.toNat < b.toNat then true
    else if b.toNat < a.toNat then false
    else chLe as bs

/-- String comparison wrapper over `chLe`. -/
def strLe (s t : String) : Bool := chLe s.data t.data

/-- Insertion step of the key sort performed by `url.Values.Encode`. -/
def insertByKey (p : String × String) : List (String × String) → List (String × String)
  | [] => [p]
  | q :: qs => if strLe p.1 q.1 then p :: q :: qs else q :: insertByKey p qs

/-- Sort an association list by key (insertion sort), modelling the
`sort.Strings(keys)` step of `url.Values.Encode`. -/
def sortByKey (l : List (String × String)) : List (String × String) :=
  l.foldr insertByKey []

/-- Join rendered parameters with ampersands, as `url.Values.Encode` does
while writing its buffer. -/
def joinAmp : List String → String
  | [] => ""
  | [s] => s
  | s :: ss => s ++ "&" ++ joinAmp ss

/-- `url.Values.Encode`: sort the parameters by key and render them as
`key=value` pairs joined by ampersands, escaping keys and values with the
URL query escaper. -/
def urlValuesEncode (escape : String → String) (vs : List (String × String)) : String :=
  joinAmp ((sortByKey vs).map (fun p => escape p.1 ++ "=" ++ escape p.2))

/-- The NextDNS DoH address (`nextDNSDoHPrefix` in the source). -/
def nextDNSDoH : String := "https://dns.nextdns.io"

/-- The `url.Values` built by `addNextDNSMetadata`: device name and device
model always, plus the first assigned address as device ip when the machine
has at least one address. -/
def nextDNSAttrs (machine : Machine) : List (String × String) :=
  let base := [("device_name", machine.hostname), ("device_model", machine.hostInfo.os)]
  match machine.ipAddresses with
  | [] => base
  | ip :: _ => base ++ [("device_ip", ip)]

/-- `addNextDNSMetadata`: rewrite, in place, the address of every resolver
that starts with the NextDNS DoH address, appending the encoded device
metadata as a query string.  The returned list is the post-call value of
the (mutated) resolver slice. -/
def addNextDNSMetadata (escape : String → String) (resolvers : List Resolver)
    (machine : Machine) : List Resolver :=
  resolvers.map fun r =>
    if strHasPre nextDNSDoH r.addr then
      { r with addr := r.addr ++ "?" ++ urlValuesEncode escape (nextDNSAttrs machine) }
    else r

/-- Go map assignment `routes[k] = nil` on the association-list model:
overwrite the entry if the key is present, append it otherwise. -/
def routesAssignNil : List (String × Option (List Resolver)) → String →
    List (String × Option (List Resolver))
  | [], k => [(k, none)]
  | q :: qs, k => if q.1 = k then (k, none) :: qs else q :: routesAssignNil qs k

/-- Go map lookup on the association-list model of `routes`. -/
def routesLookup : List (String × Option (List Resolver)) → String →
    Option (Option (List Resolver))
  | [], _ => none
  | q :: qs, k => if q.1 = k then some q.2 else routesLookup qs k

/-- The contents of the `mapset` user set built by `generateDNSConfig`:
the requesting machine's user followed by each peer's user, deduplicated
by record equality (the set is keyed by the whole `types.User` value). -/
def userList (machine : Machine) (peers : List Machine) : List User :=
  peers.foldl (fun acc p => if p.user ∈ acc then acc else acc ++ [p.user]) [machine.user]

/-- `generateDNSConfig`.  The result is `none` when the call faults with a
nil-pointer dereference (reading `.Resolvers` off a nil config, which
happens exactly when the base template is nil: `Clone` of nil is nil, the
MagicDNS branch is not taken, and the nil base is dereferenced for
resolver tagging).  On success the result carries the post-call value of
the base template object (first component — the caller's template is
mutated in place on the non-proxied path, where `dnsConfig = base` aliases
it) and the returned config (second component). -/
def generateDNSConfig (escape : String → String) (base : Option DNSConfig)
    (baseDomain : String) (machine : Machine) (peers : List Machine) :
    Option (Option DNSConfig × DNSConfig) :=
  match base with
  | none => none
  | some b =>
    if b.proxied then
      let withDomain : DNSConfig :=
        { b with domains := b.domains ++ [machine.user.name ++ "." ++ baseDomain] }
      let withRoutes : DNSConfig :=
        { withDomain with
            routes := (userList machine peers).foldl
              (fun rs u => routesAssignNil rs (u.name ++ "." ++ baseDomain))
              withDomain.routes }
      let tagged : DNSConfig :=
        { withRoutes with
            resolvers := addNextDNSMetadata escape withRoutes.resolvers machine }
      some (some b, tagged)
    else
      let tagged : DNSConfig :=
        { b with resolvers := addNextDNSMetadata escape b.resolvers machine }
      some (some tagged, tagged)

/-- Go map assignment `userMap[u.Name] = u` on the association-list model. -/
def mapInsertUser : List (String × User) → User → List (String × User)
  | [], u => [(u.name, u)]
  | q :: qs, u => if q.1 = u.name then (u.name, u) :: qs else q :: mapInsertUser qs u

/-- The `userMap` built by `generateUserProfiles`: seeded with the
requesting machine's user, then every peer's user. -/
def userMapOf (machine : Machine) (peers : List Machine) : List (String × User) :=
  peers.foldl (fun mp p => mapInsertUser mp p.user) (mapInsertUser [] machine.user)

/-- `generateUserProfiles`: one profile per entry of the user map, with
display name `name@baseDomain` when a base domain is configured. -/
def generateUserProfiles (machine : Machine) (peers : List Machine)
    (baseDomain : String) : List UserProfile :=
  (userMapOf machine peers).map fun q =>
    { id := q.2.id
      loginName := q.2.name
      displayName := if baseDomain ≠ "" then q.2.name ++ "@" ++ baseDomain else q.2.name }

/-- Modelled from the spec: the negotiated compression mode string
(`util.ZstdCompression`; the `util` package is not part of the sources).
The spec names the negotiated compression "zstd". -/
def ZstdCompression : String := "zstd"

/-- `binary.LittleEndian.PutUint32`: the four bytes of a 32-bit value,
least significant first. -/
def putUint32LE (n : Nat) : List Nat :=
  [n % 256, n / 256 % 256, n / 65536 % 256, n / 16777216 % 256]

/-- Read back a 4-byte little-endian header. -/
def decodeUint32LE (bs : List Nat) : Nat :=
  match bs with
  | [a, b, c, d] => a + 256 * b + 65536 * c + 16777216 * d
  | _ => 0

/-- `marshalMapResponse`: serialize, optionally compress, seal under the
legacy transport, and length-prefix.  A serialization error is only logged
in the source (the error return value is dropped), so on a marshal failure
`jsonBody` keeps its zero value (nil, modelled as `[]`) and the function
still returns a frame; the 4-byte header holds `uint32(len(respBody))`,
i.e. the length reduced modulo `2 ^ 32`. -/
def marshalMapResponse {Pol Node Rule SSH Derp Err Key : Type}
    (C : Collab Pol Node Rule SSH Derp Err Key) (m : Mapper Derp)
    (resp : MapResponse Node Rule SSH Derp) (machineKey : Key)
    (compression : String) : Except Err (List Nat) :=
  let jsonBody : List Nat :=
    match C.jsonMarshal resp with
    | .ok b => b
    | .error _ => []
  let respBody : List Nat :=
    if compression = ZstdCompression then
      let comped := C.zstdEncode jsonBody
      if !m.isNoise then C.sealTo machineKey comped else comped
    else
      if !m.isNoise then C.sealTo machineKey jsonBody else jsonBody
  .ok (putUint32LE (respBody.length % 2 ^ 32) ++ respBody)

/-- `fullMapResponse`: resolve the node, fetch peers, generate rules,
apply ACL filtering when the rule set is non-empty, aggregate profiles,
convert peers, synthesize DNS, and assemble the response.  `none` models a
fault (nil-pointer dereference) propagating out of `generateDNSConfig`;
`some (.error e)` models an error return. -/
def fullMapResponse {Pol Node Rule SSH Derp Err Key : Type}
    (C : Collab Pol Node Rule SSH Derp Err Key) (m : Mapper Derp)
    (machine : Machine) (pol : Pol) (now : Nat) :
    Option (Except Err (MapResponse Node Rule SSH Derp)) :=
  match C.tailNode machine pol m.dnsCfg with
  | .error e => some (.error e)
  | .ok node =>
  match C.listPeers machine with
  | .error e => some (.error e)
  | .ok candidates =>
  match C.generateFilterRules pol candidates m.stripEmailDomain with
  | .error e => some (.error e)
  | .ok (rules, sshPolicy) =>
  -- the source's local variable `peers` (the candidate set, ACL-filtered when
  -- the rule set is non-empty) is inlined at each of its three uses
  match C.tailNodes
      (if rules.length > 0 then C.filterMachinesByACL machine candidates rules
       else candidates) pol m.dnsCfg with
  | .error e => some (.error e)
  | .ok nodePeers =>
  match generateDNSConfig C.urlQueryEscape m.dnsCfg m.baseDomain machine
      (if rules.length > 0 then C.filterMachinesByACL machine candidates rules
       else candidates) with
  | none => none
  | some (_, dnsConfig) =>
  some (.ok
    { keepAlive := false
      node := some node
      derpMap := m.derpMap
      peers := nodePeers
      dnsConfig := some dnsConfig
      domain := m.baseDomain
      collectServices := "false"
      packetFilter := rules
      userProfiles := generateUserProfiles machine
        (if rules.length > 0 then C.filterMachinesByACL machine candidates rules
         else candidates) m.baseDomain
      sshPolicy := sshPolicy
      controlTime := some now
      debug := some (!m.logtail, m.randomClientPort) })

/-- `CreateMapResponse`: build the full response and frame it, parsing the
client's declared machine key first under the legacy transport. -/
def CreateMapResponse {Pol Node Rule SSH Derp Err Key : Type}
    (C : Collab Pol Node Rule SSH Derp Err Key) (m : Mapper Derp)
    (mapRequest : MapRequest) (machine : Machine) (pol : Pol) (now : Nat) :
    Option (Except Err (List Nat)) :=
  match fullMapResponse C m machine pol now with
  | none => none
  | some (.error e) => some (.error e)
  | some (.ok mapResponse) =>
    if m.isNoise then
      some (marshalMapResponse C m mapResponse C.zeroKey mapRequest.compress)
    else
      match C.parseClientKey machine.machineKey with
      | .error e => some (.error e)
      | .ok machineKey =>
        some (marshalMapResponse C m mapResponse machineKey mapRequest.compress)

/-- The minimal keepalive object: `tailcfg.MapResponse{KeepAlive: true}`,
every other field at its zero value. -/
def keepAliveResponse (Node Rule SSH Derp : Type) : MapResponse Node Rule SSH Derp :=
  { keepAlive := true
    node := none
    derpMap := none
    peers := []
    dnsConfig := none
    domain := ""
    collectServices := ""
    packetFilter := []
    userProfiles := []
    sshPolicy := none
    controlTime := none
    debug := none }

/-- `CreateKeepAliveResponse`: frame the minimal keepalive object, parsing
the client's declared machine key first under the legacy transport. -/
def CreateKeepAliveResponse {Pol Node Rule SSH Derp Err Key : Type}
    (C : Collab Pol Node Rule SSH Derp Err Key) (m : Mapper Derp)
    (mapRequest : MapRequest) (machine : Machine) : Except Err (List Nat) :=
  if m.isNoise then
    marshalMapResponse C m (keepAliveResponse Node Rule SSH Derp) C.zeroKey
      mapRequest.compress
  else
    match C.parseClientKey machine.machineKey with
    | .error e => .error e
    | .ok machineKey =>
      marshalMapResponse C m (keepAliveResponse Node Rule SSH Derp) machineKey
        mapRequest.compress

/-- Fixture: the user alice. -/
def aliceUser : User := { id := 1, name := "alice" }

/-- Fixture: the user bob. -/
def bobUser : User := { id := 2, name := "bob" }

/-- Fixture: a requesting machine owned by alice. -/
def machineW : Machine :=
  { machineKey := "mkey-alice"
    hostname := "laptop"
    ipAddresses := ["100.64.0.5"]
    user := aliceUser
    hostInfo := { os := "linux" } }

/-- Fixture: a peer machine owned by bob, with no assigned addresses. -/
def machineB : Machine :=
  { machineKey := "mkey-bob"
    hostname := "bobpc"
    ipAddresses := []
    user := bobUser
    hostInfo := { os := "darwin" } }

/-- Fixture: a MagicDNS-disabled DNS template with no resolvers. -/
def dnsW : DNSConfig := { resolvers := [], domains := [], routes := [], proxied := false }

/-- Fixture: concrete collaborators over simple carrier types. -/
def collabW : Collab Unit Nat Unit Unit Unit String Unit :=
  { tailNode := fun _ _ _ => .ok 0
    listPeers := fun _ => .ok [machineB]
    generateFilterRules := fun _ _ _ => .ok ([], none)
    filterMachinesByACL := fun _ ms _ => ms
    tailNodes := fun ms _ _ => .ok (ms.map fun _ => 0)
    jsonMarshal := fun _ => .ok []
    zstdEncode := id
    sealTo := fun _ bs => bs
    parseClientKey := fun _ => .ok ()
    zeroKey := ()
    urlQueryEscape := id }

/-- Fixture: a Noise-mode mapper configuration. -/
def mapperW : Mapper Unit :=
  { isNoise := true
    derpMap := none
    baseDomain := "example.com"
    dnsCfg := some dnsW
    logtail := true
    randomClientPort := false
    stripEmailDomain := false }

/-- Fixture: the keepalive object at the witness carrier types. -/
def kaW : MapResponse Nat Unit Unit Unit := keepAliveResponse Nat Unit Unit Unit

/-- Fixture: an empty-compression map request. -/
def reqW : MapRequest := { compress := "" }

/-- Fixture: collaborators whose JSON serializer always fails. -/
def c1Collab : Collab Unit Nat Unit Unit Unit String Unit :=
  { collabW with jsonMarshal := fun _ => .error "cannot marshal map response" }

/-- C1 (code bug): a JSON serialization failure inside `marshalMapResponse` is
only logged in the source (the `err` of `json.Marshal` is dropped after the
log call); the function still emits a length-prefixed frame built from the
nil body.  Here the serializer fails, yet the call returns `ok` with the
4-byte frame of an empty body instead of returning the error. -/
theorem marshalMapResponse_swallows_serialization_error :
    marshalMapResponse c1Collab mapperW kaW () "" = .ok [0, 0, 0, 0] := rfl

/-- C10: `generateDNSConfig` faults on a nil base template (the result `none`
models the nil-pointer dereference of `dnsConfig.Resolvers` after the
MagicDNS-disabled branch assigned the nil base to `dnsConfig`), and
`NewMapper` accepts `none` for its `dnsCfg` parameter unchanged. -/
theorem generateDNSConfig_nil_template_faults {Derp : Type}
    (escape : String → String) (baseDomain : String) (machine : Machine)
    (peers : List Machine) (isNoise : Bool) (derpMap : Option Derp)
    (logtail randomClientPort stripEmailDomain : Bool) :
    generateDNSConfig escape none baseDomain machine peers = none ∧
    (NewMapper isNoise derpMap baseDomain none logtail randomClientPort
        stripEmailDomain).dnsCfg = none :=
  ⟨rfl, rfl⟩

/-- Taking the first four bytes of a frame recovers the header. -/
lemma take_four_frame (n : Nat) (l : List Nat) :
    (putUint32LE n ++ l).take 4 = putUint32LE n := rfl

/-- Dropping the first four bytes of a frame recovers the payload. -/
lemma drop_four_frame (n : Nat) (l : List Nat) :
    (putUint32LE n ++ l).drop 4 = l := rfl

/-- Little-endian round trip for values below `2 ^ 32`. -/
lemma decodeUint32LE_putUint32LE (n : Nat) (h : n < 2 ^ 32) :
    decodeUint32LE (putUint32LE n) = n := by
  simp only [putUint32LE, decodeUint32LE]
  omega

/-- C5 (amended): the 4-byte little-endian header of every frame emitted by
`marshalMapResponse` equals the byte length of the payload that follows
reduced modulo `2 ^ 32`; whenever the payload is shorter than `2 ^ 32`
bytes this is the exact byte length. -/
theorem marshalMapResponse_header_exact {Pol Node Rule SSH Derp Err Key : Type}
    (C : Collab Pol Node Rule SSH Derp Err Key) (m : Mapper Derp)
    (resp : MapResponse Node Rule SSH Derp) (machineKey : Key)
    (compression : String) (out : List Nat)
    (hout : marshalMapResponse C m resp machineKey compression = .ok out)
    (hlen : (out.drop 4).length < 2 ^ 32) :
    decodeUint32LE (out.take 4) = (out.drop 4).length := by
  simp only [marshalMapResponse, Except.ok.injEq] at hout
  subst hout
  rw [take_four_frame, drop_four_frame] at *
  rw [decodeUint32LE_putUint32LE _ (Nat.mod_lt _ (by positivity))]
  exact Nat.mod_eq_of_lt hlen

/-- C5 witness: concrete application of the header theorem to the frame of
an empty body. -/
theorem marshalMapResponse_header_exact_witness :
    decodeUint32LE (([0, 0, 0, 0] : List Nat).take 4)
      = (([0, 0, 0, 0] : List Nat).drop 4).length :=
  marshalMapResponse_header_exact collabW mapperW kaW () "" [0, 0, 0, 0] rfl (by decide)

/-- Normal form of `marshalMapResponse` in Noise mode without compression. -/
lemma marshalMapResponse_noise_plain {Pol Node Rule SSH Derp Err Key : Type}
    (C : Collab Pol Node Rule SSH Derp Err Key) (m : Mapper Derp)
    (resp : MapResponse Node Rule SSH Derp) (machineKey : Key)
    (compression : String) (body : List Nat)
    (hj : C.jsonMarshal resp = .ok body) (hnoise : m.isNoise = true)
    (hcomp : compression ≠ ZstdCompression) :
    marshalMapResponse C m resp machineKey compression
      = .ok (putUint32LE (body.length % 2 ^ 32) ++ body) := by
  simp [marshalMapResponse, hj, hnoise, hcomp]

/-- Fixture: collaborators whose serializer emits a `2 ^ 32`-byte body. -/
def hugeCollab : Collab Unit Nat Unit Unit Unit String Unit :=
  { collabW with jsonMarshal := fun _ => .ok (List.replicate (2 ^ 32) 0) }

/-- C5 counterexample: for a `2 ^ 32`-byte payload the `uint32` conversion
wraps, so the emitted header reads 0 while the payload that follows has
length `2 ^ 32` — the header does not equal the exact byte length. -/
theorem marshalMapResponse_header_truncates :
    marshalMapResponse hugeCollab mapperW kaW () ""
      = .ok (putUint32LE 0 ++ List.replicate (2 ^ 32) 0) ∧
    decodeUint32LE ((putUint32LE 0 ++ List.replicate (2 ^ 32) 0).take 4)
      ≠ ((putUint32LE 0 ++ List.replicate (2 ^ 32) 0).drop 4).length := by
  constructor
  · rw [marshalMapResponse_noise_plain hugeCollab mapperW kaW () "" _ rfl rfl (by decide)]
    rw [List.length_replicate]
    norm_num
  · rw [take_four_frame, drop_four_frame,
      decodeUint32LE_putUint32LE 0 (by positivity), List.length_replicate]
    norm_num

/-- C6: the payload placed after the frame header by `marshalMapResponse`,
by transport mode and negotiated compression: Noise-mode payloads are
unsealed (the compressed or raw serialized bytes), legacy-mode payloads are
sealed to the client key, and zstd compression is applied to the serialized
bytes before any sealing. -/
theorem marshalMapResponse_transport_modes {Pol Node Rule SSH Derp Err Key : Type}
    (C : Collab Pol Node Rule SSH Derp Err Key) (m : Mapper Derp)
    (resp : MapResponse Node Rule SSH Derp) (machineKey : Key)
    (compression : String) (body out : List Nat)
    (hj : C.jsonMarshal resp = .ok body)
    (hout : marshalMapResponse C m resp machineKey compression = .ok out) :
    (m.isNoise = true → compression = ZstdCompression →
      out.drop 4 = C.zstdEncode body) ∧
    (m.isNoise = true → compression ≠ ZstdCompression → out.drop 4 = body) ∧
    (m.isNoise = false → compression = ZstdCompression →
      out.drop 4 = C.sealTo machineKey (C.zstdEncode body)) ∧
    (m.isNoise = false → compression ≠ ZstdCompression →
      out.drop 4 = C.sealTo machineKey body) := by
  simp only [marshalMapResponse, hj, Except.ok.injEq] at hout
  subst hout
  refine ⟨?_, ?_, ?_, ?_⟩ <;> intro h1 h2 <;>
    simp [h1, h2, drop_four_frame]

/-- Fixture: legacy-mode collaborators with marker compression and sealing. -/
def c6Collab : Collab Unit Nat Unit Unit Unit String Unit :=
  { collabW with
      jsonMarshal := fun _ => .ok [1, 2]
      zstdEncode := fun bs => 9 :: bs
      sealTo := fun _ bs => 7 :: bs }

/-- Fixture: a legacy-mode (non-Noise) mapper configuration. -/
def c6Mapper : Mapper Unit := { mapperW with isNoise := false }

/-- C6 witness: legacy mode with zstd compression seals the compressed
serialized bytes. -/
theorem marshalMapResponse_transport_modes_witness :
    (putUint32LE 4 ++ [7, 9, 1, 2] : List Nat).drop 4
      = c6Collab.sealTo () (c6Collab.zstdEncode [1, 2]) := by
  have h := marshalMapResponse_transport_modes c6Collab c6Mapper kaW () "zstd"
    [1, 2] (putUint32LE 4 ++ [7, 9, 1, 2]) rfl rfl
  exact h.2.2.1 rfl rfl

/-- Membership after a user-map insert: the new entry or an old one. -/
lemma mem_mapInsertUser {mp : List (String × User)} {u : User} {q : String × User}
    (hq : q ∈ mapInsertUser mp u) : q = (u.name, u) ∨ q ∈ mp := by
  induction mp with
  | nil => simpa [mapInsertUser] using hq
  | cons p ps ih =>
    simp only [mapInsertUser] at hq
    by_cases hp : p.1 = u.name
    · rw [if_pos hp] at hq
      rcases List.mem_cons.mp hq with h | h
      · exact Or.inl h
      · exact Or.inr (List.mem_cons_of_mem _ h)
    · rw [if_neg hp] at hq
      rcases List.mem_cons.mp hq with h | h
      · exact Or.inr (h ▸ List.mem_cons_self _ _)
      · rcases ih h with h2 | h2
        · exact Or.inl h2
        · exact Or.inr (List.mem_cons_of_mem _ h2)

/-- Keys after a user-map insert: the inserted name joins the key set. -/
lemma mem_keys_mapInsertUser {mp : List (String × User)} {u : User} {k : String} :
    k ∈ (mapInsertUser mp u).map Prod.fst ↔ k = u.name ∨ k ∈ mp.map Prod.fst := by
  induction mp with
  | nil => simp [mapInsertUser]
  | cons p ps ih =>
    by_cases hp : p.1 = u.name
    · have he : mapInsertUser (p :: ps) u = (u.name, u) :: ps := by
        simp [mapInsertUser, hp]
      rw [he]
      simp only [List.map_cons, List.mem_cons]
      constructor
      · rintro (h | h)
        · exact Or.inl h
        · exact Or.inr (Or.inr h)
      · rintro (h | h | h)
        · exact Or.inl h
        · exact Or.inl (hp ▸ h)
        · exact Or.inr h
    · simp only [mapInsertUser, if_neg hp, List.map_cons, List.mem_cons, ih]
      tauto

/-- A user-map insert preserves the invariant that every entry is keyed by
its user's name. -/
lemma entry_name_mapInsertUser {mp : List (String × User)} {u : User}
    (h : ∀ q ∈ mp, q.2.name = q.1) : ∀ q ∈ mapInsertUser mp u, q.2.name = q.1 := by
  intro q hq
  rcases mem_mapInsertUser hq with h2 | h2
  · subst h2; rfl
  · exact h q h2

/-- Folding user-map inserts preserves the name-keying invariant. -/
lemma userMap_fold_entry_name (peers : List Machine) (mp : List (String × User))
    (h : ∀ q ∈ mp, q.2.name = q.1) :
    ∀ q ∈ peers.foldl (fun m p => mapInsertUser m p.user) mp, q.2.name = q.1 := by
  induction peers generalizing mp with
  | nil => simpa using h
  | cons p ps ih =>
    simp only [List.foldl_cons]
    exact ih _ (entry_name_mapInsertUser h)

/-- Every entry of the folded user map comes from the seed map or from one
of the folded peers. -/
lemma userMap_fold_mem (peers : List Machine) (mp : List (String × User))
    (q : String × User)
    (hq : q ∈ peers.foldl (fun m p => mapInsertUser m p.user) mp) :
    q ∈ mp ∨ ∃ p, p ∈ peers ∧ q = (p.user.name, p.user) := by
  induction peers generalizing mp with
  | nil => exact Or.inl (by simpa using hq)
  | cons p ps ih =>
    simp only [List.foldl_cons] at hq
    rcases ih _ hq with h | ⟨p2, hp2, h2⟩
    · rcases mem_mapInsertUser h with h2 | h2
      · exact Or.inr ⟨p, List.mem_cons_self _ _, h2⟩
      · exact Or.inl h2
    · exact Or.inr ⟨p2, List.mem_cons_of_mem _ hp2, h2⟩

/-- The key set of the folded user map is the seed key set plus the folded
peers' user names. -/
lemma userMap_fold_mem_keys (peers : List Machine) (mp : List (String × User))
    (k : String) :
    k ∈ (peers.foldl (fun m p => mapInsertUser m p.user) mp).map Prod.fst ↔
      k ∈ mp.map Prod.fst ∨ k ∈ peers.map (fun p => p.user.name) := by
  induction peers generalizing mp with
  | nil => simp
  | cons p ps ih =>
    simp only [List.foldl_cons, List.map_cons, List.mem_cons]
    rw [ih, mem_keys_mapInsertUser]
    tauto

/-- C3: the user profiles emitted by `generateUserProfiles`, projected to
login names, are exactly the names of the unique users among the requesting
machine and the peers (no omission and no leak), and every emitted profile
carries the id and login name of one of those users. -/
theorem generateUserProfiles_exact_users (machine : Machine) (peers : List Machine)
    (baseDomain : String) :
    ((generateUserProfiles machine peers baseDomain).map
        (fun pr => pr.loginName)).toFinset
      = insert machine.user.name (peers.map (fun p => p.user.name)).toFinset ∧
    ∀ pr ∈ generateUserProfiles machine peers baseDomain,
      (pr.id = machine.user.id ∧ pr.loginName = machine.user.name) ∨
      ∃ p, p ∈ peers ∧ pr.id = p.user.id ∧ pr.loginName = p.user.name := by
  have hname : ∀ q ∈ userMapOf machine peers, q.2.name = q.1 := by
    simp only [userMapOf]
    apply userMap_fold_entry_name
    intro q hq
    simp only [mapInsertUser, List.mem_singleton] at hq
    subst hq; rfl
  constructor
  · have hmapeq : (generateUserProfiles machine peers baseDomain).map
        (fun pr => pr.loginName) = (userMapOf machine peers).map Prod.fst := by
      simp only [generateUserProfiles, List.map_map, Function.comp]
      exact List.map_congr_left fun q hq => hname q hq
    rw [hmapeq]
    ext k
    simp only [userMapOf] at *
    rw [List.mem_toFinset, userMap_fold_mem_keys]
    simp [mapInsertUser]
  · intro pr hpr
    simp only [generateUserProfiles, List.mem_map] at hpr
    obtain ⟨q, hq, rfl⟩ := hpr
    simp only [userMapOf] at hq
    rcases userMap_fold_mem peers _ q hq with h | ⟨p, hp, h2⟩
    · simp only [mapInsertUser, List.mem_singleton] at h
      subst h
      exact Or.inl ⟨rfl, rfl⟩
    · subst h2
      exact Or.inr ⟨p, hp, rfl, rfl⟩

/-- C3 witness: the profile emitted for bob's peer machine carries bob's id
and login name. -/
theorem generateUserProfiles_exact_users_witness :
    (({ id := 2, loginName := "bob", displayName := "bob@example.com" } : UserProfile).id
          = machineW.user.id ∧
        ({ id := 2, loginName := "bob", displayName := "bob@example.com" } : UserProfile).loginName
          = machineW.user.name) ∨
      ∃ p, p ∈ [machineB] ∧
        ({ id := 2, loginName := "bob", displayName := "bob@example.com" } : UserProfile).id
            = p.user.id ∧
        ({ id := 2, loginName := "bob", displayName := "bob@example.com" } : UserProfile).loginName
            = p.user.name :=
  (generateUserProfiles_exact_users machineW [machineB] "example.com").2
    { id := 2, loginName := "bob", displayName := "bob@example.com" } (by decide)

/-- Looking up the just-assigned key yields the nil value. -/
lemma routesLookup_assign_self (rs : List (String × Option (List Resolver)))
    (k : String) :
    routesLookup (routesAssignNil rs k) k = some none := by
  induction rs with
  | nil => simp [routesAssignNil, routesLookup]
  | cons q qs ih =>
    by_cases hq : q.1 = k
    · simp [routesAssignNil, hq, routesLookup]
    · simp [routesAssignNil, hq, routesLookup, ih]

/-- Assigning one key leaves lookups of other keys unchanged. -/
lemma routesLookup_assign_other (rs : List (String × Option (List Resolver)))
    (k k2 : String) (hne : k2 ≠ k) :
    routesLookup (routesAssignNil rs k) k2 = routesLookup rs k2 := by
  have hne2 : k ≠ k2 := Ne.symm hne
  induction rs with
  | nil => simp [routesAssignNil, routesLookup, hne2]
  | cons q qs ih =>
    by_cases hq : q.1 = k
    · simp [routesAssignNil, hq, routesLookup, hne2]
    · simp [routesAssignNil, hq, routesLookup, ih]

/-- The key set after an assignment gains the assigned key. -/
lemma mem_keys_routesAssignNil (rs : List (String × Option (List Resolver)))
    (k k2 : String) :
    k2 ∈ (routesAssignNil rs k).map Prod.fst ↔ k2 = k ∨ k2 ∈ rs.map Prod.fst := by
  induction rs with
  | nil => simp [routesAssignNil]
  | cons q qs ih =>
    by_cases hq : q.1 = k
    · have he : routesAssignNil (q :: qs) k = (k, none) :: qs := by
        simp [routesAssignNil, hq]
      rw [he]
      simp only [List.map_cons, List.mem_cons]
      constructor
      · rintro (h | h)
        · exact Or.inl h
        · exact Or.inr (Or.inr h)
      · rintro (h | h | h)
        · exact Or.inl h
        · exact Or.inl (hq ▸ h)
        · exact Or.inr h
    · have he : routesAssignNil (q :: qs) k = q :: routesAssignNil qs k := by
        simp [routesAssignNil, hq]
      rw [he]
      simp only [List.map_cons, List.mem_cons, ih]
      tauto

/-- Folded assignments leave lookups of untouched keys unchanged. -/
lemma routesLookup_fold_not_mem (K : List String)
    (rs : List (String × Option (List Resolver))) (k : String) (hk : k ∉ K) :
    routesLookup (K.foldl routesAssignNil rs) k = routesLookup rs k := by
  induction K generalizing rs with
  | nil => rfl
  | cons a K2 ih =>
    simp only [List.foldl_cons]
    rw [ih _ (fun h => hk (List.mem_cons_of_mem _ h)),
      routesLookup_assign_other _ _ _
        (fun h => hk (by rw [h]; exact List.mem_cons_self _ _))]

/-- Every folded-in key ends mapped to the nil value. -/
lemma routesLookup_fold_mem (K : List String)
    (rs : List (String × Option (List Resolver))) (k : String) (hk : k ∈ K) :
    routesLookup (K.foldl routesAssignNil rs) k = some none := by
  induction K generalizing rs with
  | nil => cases hk
  | cons a K2 ih =>
    simp only [List.foldl_cons]
    by_cases h2 : k ∈ K2
    · exact ih _ h2
    · have ha : k = a := by
        rcases List.mem_cons.mp hk with h | h
        · exact h
        · exact absurd h h2
      subst ha
      rw [routesLookup_fold_not_mem K2 _ _ h2, routesLookup_assign_self]

/-- Key set of the folded assignments. -/
lemma mem_keys_routes_fold (K : List String)
    (rs : List (String × Option (List Resolver))) (k : String) :
    k ∈ (K.foldl routesAssignNil rs).map Prod.fst ↔
      k ∈ rs.map Prod.fst ∨ k ∈ K := by
  induction K generalizing rs with
  | nil => simp
  | cons a K2 ih =>
    simp only [List.foldl_cons, List.mem_cons]
    rw [ih, mem_keys_routesAssignNil]
    tauto

/-- Membership in the deduplicating user fold. -/
lemma mem_userList_fold (peers : List Machine) (acc : List User) (u : User) :
    u ∈ peers.foldl (fun a p => if p.user ∈ a then a else a ++ [p.user]) acc ↔
      u ∈ acc ∨ u ∈ peers.map (fun p => p.user) := by
  induction peers generalizing acc with
  | nil => simp
  | cons p ps ih =>
    simp only [List.foldl_cons, List.map_cons, List.mem_cons]
    by_cases hp : p.user ∈ acc
    · rw [if_pos hp, ih]
      constructor
      · rintro (h | h)
        · exact Or.inl h
        · exact Or.inr (Or.inr h)
      · rintro (h | h | h)
        · exact Or.inl h
        · exact Or.inl (h ▸ hp)
        · exact Or.inr h
    · rw [if_neg hp, ih]
      simp only [List.mem_append, List.mem_singleton]
      tauto

/-- Membership in the mapset user set: the requesting user or a peer user. -/
lemma mem_userList (machine : Machine) (peers : List Machine) (u : User) :
    u ∈ userList machine peers ↔
      u = machine.user ∨ u ∈ peers.map (fun p => p.user) := by
  rw [userList, mem_userList_fold]
  simp

/-- Normal form of `generateDNSConfig` on the MagicDNS-enabled branch. -/
lemma generateDNSConfig_proxied_eq (escape : String → String) (bd : String)
    (machine : Machine) (peers : List Machine) (b : DNSConfig)
    (hprox : b.proxied = true) :
    generateDNSConfig escape (some b) bd machine peers =
      some (some b,
        { resolvers := addNextDNSMetadata escape b.resolvers machine
          domains := b.domains ++ [machine.user.name ++ "." ++ bd]
          routes := (userList machine peers).foldl
            (fun rs u => routesAssignNil rs (u.name ++ "." ++ bd)) b.routes
          proxied := b.proxied }) := by
  simp [generateDNSConfig, hprox]

/-- C7: with MagicDNS enabled, `generateDNSConfig` appends exactly one
search domain (the requesting user's name dotted with the base domain) to
the cloned config, adds a nil-target route entry for every unique user
among the requesting machine and the peers, and adds no route key beyond
the template's keys and those user keys. -/
theorem generateDNSConfig_magicdns_enabled (escape : String → String) (bd : String)
    (machine : Machine) (peers : List Machine) (b : DNSConfig)
    (updBase : Option DNSConfig) (cfg : DNSConfig) (hprox : b.proxied = true)
    (h : generateDNSConfig escape (some b) bd machine peers = some (updBase, cfg)) :
    cfg.domains = b.domains ++ [machine.user.name ++ "." ++ bd] ∧
    (∀ u : User, u = machine.user ∨ u ∈ peers.map (fun p => p.user) →
      routesLookup cfg.routes (u.name ++ "." ++ bd) = some none) ∧
    (∀ k, k ∈ cfg.routes.map Prod.fst → k ∈ b.routes.map Prod.fst ∨
      ∃ u : User, (u = machine.user ∨ u ∈ peers.map (fun p => p.user)) ∧
        k = u.name ++ "." ++ bd) := by
  rw [generateDNSConfig_proxied_eq escape bd machine peers b hprox] at h
  simp only [Option.some.injEq, Prod.mk.injEq] at h
  obtain ⟨hu, hc⟩ := h
  subst hc
  refine ⟨rfl, ?_, ?_⟩
  · intro u hu2
    show routesLookup ((userList machine peers).foldl
        (fun rs u2 => routesAssignNil rs (u2.name ++ "." ++ bd)) b.routes)
      (u.name ++ "." ++ bd) = some none
    rw [← List.foldl_map]
    exact routesLookup_fold_mem _ _ _
      (List.mem_map_of_mem _ ((mem_userList machine peers u).mpr hu2))
  · intro k hk
    have hk2 : k ∈ (((userList machine peers).map
        (fun u => u.name ++ "." ++ bd)).foldl routesAssignNil b.routes).map Prod.fst := by
      rw [List.foldl_map]
      exact hk
    rw [mem_keys_routes_fold] at hk2
    rcases hk2 with h3 | h3
    · exact Or.inl h3
    · obtain ⟨u, hu3, rfl⟩ := List.mem_map.mp h3
      exact Or.inr ⟨u, (mem_userList machine peers u).mp hu3, rfl⟩

/-- Fixture: a MagicDNS-enabled template with one preexisting domain. -/
def b7 : DNSConfig := { resolvers := [], domains := ["d0"], routes := [], proxied := true }

/-- Fixture: the config produced from `b7` for alice with bob's peer. -/
def cfg7 : DNSConfig :=
  { resolvers := []
    domains := ["d0", "alice.example.com"]
    routes := [("alice.example.com", none), ("bob.example.com", none)]
    proxied := true }

/-- C7 witness: the route entry reserved for bob's user maps to nil. -/
theorem generateDNSConfig_magicdns_enabled_witness :
    routesLookup cfg7.routes (bobUser.name ++ "." ++ "example.com") = some none := by
  have h := generateDNSConfig_magicdns_enabled id "example.com" machineW [machineB] b7
    (some b7) cfg7 rfl rfl
  exact h.2.1 bobUser (Or.inr (by decide))

/-- Resolver tagging is the identity when no resolver matches the NextDNS
address. -/
lemma addNextDNSMetadata_of_no_match (escape : String → String)
    (resolvers : List Resolver) (machine : Machine)
    (h : ∀ r ∈ resolvers, strHasPre nextDNSDoH r.addr = false) :
    addNextDNSMetadata escape resolvers machine = resolvers := by
  unfold addNextDNSMetadata
  conv_rhs => rw [← List.map_id resolvers]
  exact List.map_congr_left fun r hr => by simp [h r hr]

/-- Normal form of `generateDNSConfig` on the MagicDNS-disabled branch:
the returned config is the base template object itself, with its resolver
slice tagged in place. -/
lemma generateDNSConfig_unproxied_eq (escape : String → String) (bd : String)
    (machine : Machine) (peers : List Machine) (b : DNSConfig)
    (hprox : b.proxied = false) :
    generateDNSConfig escape (some b) bd machine peers =
      some (some { b with resolvers := addNextDNSMetadata escape b.resolvers machine },
        { b with resolvers := addNextDNSMetadata escape b.resolvers machine }) := by
  simp [generateDNSConfig, hprox]

/-- C2 (amended): with MagicDNS enabled the base template is left
unmodified (all mutation goes to the clone); with MagicDNS disabled the
returned config is the base template object itself with no added domains
and no added routes, but the call rewrites the base's matching NextDNS
resolver addresses in place — the base is value-unchanged only when no
resolver matches the NextDNS address. -/
theorem generateDNSConfig_base_effect (escape : String → String) (bd : String)
    (machine : Machine) (peers : List Machine) (b : DNSConfig)
    (updBase : Option DNSConfig) (cfg : DNSConfig)
    (h : generateDNSConfig escape (some b) bd machine peers = some (updBase, cfg)) :
    (b.proxied = true → updBase = some b) ∧
    (b.proxied = false →
      updBase = some cfg ∧ cfg.domains = b.domains ∧ cfg.routes = b.routes ∧
      cfg.proxied = false ∧
      ((∀ r ∈ b.resolvers, strHasPre nextDNSDoH r.addr = false) → cfg = b)) := by
  constructor
  · intro hprox
    rw [generateDNSConfig_proxied_eq escape bd machine peers b hprox] at h
    simp only [Option.some.injEq, Prod.mk.injEq] at h
    exact h.1.symm
  · intro hprox
    rw [generateDNSConfig_unproxied_eq escape bd machine peers b hprox] at h
    simp only [Option.some.injEq, Prod.mk.injEq] at h
    obtain ⟨hu, hc⟩ := h
    subst hc
    refine ⟨hu.symm, rfl, rfl, hprox, ?_⟩
    intro hno
    rw [addNextDNSMetadata_of_no_match escape b.resolvers machine hno]

/-- Fixture: a MagicDNS-disabled template holding one NextDNS resolver. -/
def cexBase : DNSConfig :=
  { resolvers := [{ addr := "https://dns.nextdns.io/abc123" }]
    domains := []
    routes := []
    proxied := false }

/-- C2 counterexample: with MagicDNS disabled and a NextDNS resolver
present, the call rewrites the base template in place — the post-call value
of the base template object differs from the template value passed in, so
the base is not left unmodified and the returned (aliased) config is not
value-equal to the original template. -/
theorem generateDNSConfig_mutates_base :
    (generateDNSConfig id (some cexBase) "example.com" machineW []).map Prod.fst
      ≠ some (some cexBase) := by decide

/-- C2 witness: on a MagicDNS-disabled template with no resolvers the base
is returned as the config, unchanged. -/
theorem generateDNSConfig_base_effect_witness :
    (some dnsW : Option DNSConfig) = some dnsW ∧ dnsW.domains = dnsW.domains ∧
      dnsW.routes = dnsW.routes ∧ dnsW.proxied = false ∧ dnsW = dnsW := by
  have h := generateDNSConfig_base_effect id "example.com" machineW [] dnsW
    (some dnsW) dnsW rfl
  have h2 := h.2 rfl
  exact ⟨h2.1, h2.2.1, h2.2.2.1, h2.2.2.2.1, h2.2.2.2.2 (by intro r hr; cases hr)⟩

/-- Evaluation of the encoded NextDNS query parameters: keys appear in
sorted order, and device ip is present exactly when the machine has at
least one assigned address. -/
lemma urlValuesEncode_nextDNSAttrs (escape : String → String) (machine : Machine) :
    urlValuesEncode escape (nextDNSAttrs machine) =
      match machine.ipAddresses with
      | [] => escape "device_model" ++ "=" ++ escape machine.hostInfo.os ++ "&" ++
          (escape "device_name" ++ "=" ++ escape machine.hostname)
      | ip :: _ => escape "device_ip" ++ "=" ++ escape ip ++ "&" ++
          (escape "device_model" ++ "=" ++ escape machine.hostInfo.os ++ "&" ++
            (escape "device_name" ++ "=" ++ escape machine.hostname)) := by
  have h1 : strLe "device_name" "device_model" = false := by decide
  have h2 : strLe "device_model" "device_ip" = false := by decide
  have h3 : strLe "device_name" "device_ip" = false := by decide
  cases hip : machine.ipAddresses with
  | nil =>
    simp [urlValuesEncode, nextDNSAttrs, hip, sortByKey, insertByKey, joinAmp, h1, h2, h3]
  | cons ip rest =>
    simp [urlValuesEncode, nextDNSAttrs, hip, sortByKey, insertByKey, joinAmp, h1, h2, h3]

/-- C8: resolver-metadata tagging: every resolver whose address starts with
the NextDNS DoH address is rewritten in place to its old address plus a
query string holding device name (hostname), device model (OS) and — iff
the machine has at least one assigned address — device ip (the first
address), URL-encoded; every other resolver is left unchanged. -/
theorem addNextDNSMetadata_tagging (escape : String → String) (machine : Machine)
    (resolvers : List Resolver) :
    (addNextDNSMetadata escape resolvers machine).length = resolvers.length ∧
    ∀ i (h : i < resolvers.length)
      (h2 : i < (addNextDNSMetadata escape resolvers machine).length),
      (strHasPre nextDNSDoH resolvers[i].addr = false →
        (addNextDNSMetadata escape resolvers machine)[i] = resolvers[i]) ∧
      (strHasPre nextDNSDoH resolvers[i].addr = true →
        (addNextDNSMetadata escape resolvers machine)[i] =
          { resolvers[i] with
              addr := resolvers[i].addr ++ "?" ++
                (match machine.ipAddresses with
                 | [] => escape "device_model" ++ "=" ++ escape machine.hostInfo.os ++ "&" ++
                     (escape "device_name" ++ "=" ++ escape machine.hostname)
                 | ip :: _ => escape "device_ip" ++ "=" ++ escape ip ++ "&" ++
                     (escape "device_model" ++ "=" ++ escape machine.hostInfo.os ++ "&" ++
                       (escape "device_name" ++ "=" ++ escape machine.hostname))) }) := by
  refine ⟨by simp [addNextDNSMetadata], ?_⟩
  intro i h h2
  have hget : (addNextDNSMetadata escape resolvers machine)[i] =
      if strHasPre nextDNSDoH resolvers[i].addr then
        { resolvers[i] with
            addr := (resolvers[i].addr ++ "?" ++ urlValuesEncode escape (nextDNSAttrs machine)) }
      else resolvers[i] := by
    simp [addNextDNSMetadata]
  constructor
  · intro hno
    rw [hget, if_neg (by simp [hno])]
  · intro hyes
    rw [hget, if_pos (by simp [hyes]), urlValuesEncode_nextDNSAttrs]

/-- Fixture: one NextDNS resolver followed by an unrelated resolver. -/
def resolversW : List Resolver :=
  [{ addr := "https://dns.nextdns.io/abc123" }, { addr := "https://example.com/dns" }]

/-- C8 witness: the NextDNS resolver of the fixture list is tagged with the
laptop's metadata, device ip included, in sorted key order. -/
theorem addNextDNSMetadata_tagging_witness :
    (addNextDNSMetadata id resolversW machineW).get ⟨0, by decide⟩ =
      { addr := "https://dns.nextdns.io/abc123?device_ip=100.64.0.5&device_model=linux&device_name=laptop" } := by
  have h := ((addNextDNSMetadata_tagging id machineW resolversW).2 0 (by decide)
    (by decide)).2 (by decide)
  exact h.trans (by decide)

/-- C4: in `fullMapResponse`, an empty generated rule set means no ACL
filtering (the response carries the converted full candidate peer set), a
non-empty rule set means the response carries the converted ACL-filtered
candidate set, and the packet filter placed in the response is the rule set
generated from the pre-filter candidate set. -/
theorem fullMapResponse_acl_filtering {Pol Node Rule SSH Derp Err Key : Type}
    (C : Collab Pol Node Rule SSH Derp Err Key) (m : Mapper Derp)
    (machine : Machine) (pol : Pol) (now : Nat) (candidates : List Machine)
    (rules : List Rule) (sshPolicy : Option SSH)
    (resp : MapResponse Node Rule SSH Derp)
    (hpeers : C.listPeers machine = .ok candidates)
    (hrules : C.generateFilterRules pol candidates m.stripEmailDomain
      = .ok (rules, sshPolicy))
    (hresp : fullMapResponse C m machine pol now = some (.ok resp)) :
    resp.packetFilter = rules ∧
    (rules = [] → ∀ nodePeers,
      C.tailNodes candidates pol m.dnsCfg = .ok nodePeers →
      resp.peers = nodePeers) ∧
    (rules ≠ [] → ∀ nodePeers,
      C.tailNodes (C.filterMachinesByACL machine candidates rules) pol m.dnsCfg
        = .ok nodePeers →
      resp.peers = nodePeers) := by
  unfold fullMapResponse at hresp
  split at hresp
  next e htn => exact absurd hresp (by simp)
  next node htn =>
  split at hresp
  next e hp2 => exact absurd hresp (by simp)
  next cand hp2 =>
  rw [hpeers] at hp2
  injection hp2 with hp3
  subst hp3
  split at hresp
  next e hr2 => exact absurd hresp (by simp)
  next rules2 ssh2 hr2 =>
  rw [hrules] at hr2
  injection hr2 with hr3
  injection hr3 with hr4 hr5
  subst hr4
  subst hr5
  cases rules with
  | nil =>
    have hif : (if ([] : List Rule).length > 0 then
        C.filterMachinesByACL machine candidates [] else candidates) = candidates :=
      if_neg (by simp)
    rw [hif] at hresp
    split at hresp
    next e htns => exact absurd hresp (by simp)
    next nodePeers2 htns =>
    split at hresp
    next hdns => exact absurd hresp (by simp)
    next upd cfg hdns =>
    simp only [Option.some.injEq, Except.ok.injEq] at hresp
    subst hresp
    refine ⟨rfl, ?_, ?_⟩
    · intro _ nodePeers htns2
      rw [htns] at htns2
      injection htns2 with h5
    · intro hne
      exact absurd rfl hne
  | cons r rs =>
    have hif : (if (r :: rs).length > 0 then
        C.filterMachinesByACL machine candidates (r :: rs) else candidates)
        = C.filterMachinesByACL machine candidates (r :: rs) :=
      if_pos (by simp)
    rw [hif] at hresp
    split at hresp
    next e htns => exact absurd hresp (by simp)
    next nodePeers2 htns =>
    split at hresp
    next hdns => exact absurd hresp (by simp)
    next upd cfg hdns =>
    simp only [Option.some.injEq, Except.ok.injEq] at hresp
    subst hresp
    refine ⟨rfl, ?_, ?_⟩
    · intro habs
      exact absurd habs (by simp)
    · intro _ nodePeers htns2
      rw [htns] at htns2
      injection htns2 with h5

/-- Fixture: the full response produced by the witness collaborators for
alice's machine with bob's machine as sole candidate peer and an empty
rule set. -/
def respW4 : MapResponse Nat Unit Unit Unit :=
  { keepAlive := false
    node := some 0
    derpMap := none
    peers := [0]
    dnsConfig := some dnsW
    domain := "example.com"
    collectServices := "false"
    packetFilter := []
    userProfiles :=
      [{ id := 1, loginName := "alice", displayName := "alice@example.com" },
       { id := 2, loginName := "bob", displayName := "bob@example.com" }]
    sshPolicy := none
    controlTime := some 5
    debug := some (false, false) }

/-- C4 witness: with an empty rule set the emitted peer set is the full
(converted) candidate set and the packet filter is the generated rule set. -/
theorem fullMapResponse_acl_filtering_witness :
    respW4.packetFilter = ([] : List Unit) ∧ respW4.peers = [0] := by
  have h := fullMapResponse_acl_filtering collabW mapperW machineW () 5 [machineB]
    [] none respW4 rfl rfl rfl
  exact ⟨h.1, h.2.1 rfl [0] rfl⟩

/-- C9: `CreateKeepAliveResponse` never invokes the Response Builder — its
output is unchanged under arbitrary replacement of the builder-side
collaborators (node conversion, peer fetch, rule generation, ACL filtering,
peer conversion, URL escaping), as long as the serializer-side
collaborators agree — and the logical object it serializes and frames is
the keepalive object: keepalive flag true and no node, peer, DNS, filter,
or profile data populated. -/
theorem createKeepAliveResponse_minimal {Pol Node Rule SSH Derp Err Key : Type}
    (C D : Collab Pol Node Rule SSH Derp Err Key) (m : Mapper Derp)
    (mapRequest : MapRequest) (machine : Machine)
    (hjson : C.jsonMarshal = D.jsonMarshal) (hz : C.zstdEncode = D.zstdEncode)
    (hs : C.sealTo = D.sealTo) (hk : C.parseClientKey = D.parseClientKey)
    (h0 : C.zeroKey = D.zeroKey) :
    CreateKeepAliveResponse C m mapRequest machine
        = CreateKeepAliveResponse D m mapRequest machine ∧
    (keepAliveResponse Node Rule SSH Derp).keepAlive = true ∧
    (keepAliveResponse Node Rule SSH Derp).node = none ∧
    (keepAliveResponse Node Rule SSH Derp).peers = [] ∧
    (keepAliveResponse Node Rule SSH Derp).dnsConfig = none ∧
    (keepAliveResponse Node Rule SSH Derp).packetFilter = [] ∧
    (keepAliveResponse Node Rule SSH Derp).userProfiles = [] ∧
    (keepAliveResponse Node Rule SSH Derp).sshPolicy = none ∧
    (m.isNoise = true →
      CreateKeepAliveResponse C m mapRequest machine
        = marshalMapResponse C m (keepAliveResponse Node Rule SSH Derp) C.zeroKey
            mapRequest.compress) := by
  refine ⟨?_, rfl, rfl, rfl, rfl, rfl, rfl, rfl, ?_⟩
  · unfold CreateKeepAliveResponse marshalMapResponse
    rw [hjson, hz, hs, hk, h0]
  · intro hn
    simp [CreateKeepAliveResponse, hn]

/-- C9 witness: concrete application in Noise mode — the keepalive bytes
are the frame of the serialized keepalive object. -/
theorem createKeepAliveResponse_minimal_witness :
    CreateKeepAliveResponse collabW mapperW reqW machineW
      = marshalMapResponse collabW mapperW (keepAliveResponse Nat Unit Unit Unit)
          collabW.zeroKey reqW.compress := by
  have h := createKeepAliveResponse_minimal collabW collabW mapperW reqW machineW
    rfl rfl rfl rfl rfl
  exact h.2.2.2.2.2.2.2.2 rfl
